import Mathlib

/-!
Shallow embedding of `combine_yolo_datasets.py`: a script that merges several
YOLO-format detection datasets into one, unifying their class vocabularies via
a hardcoded synonym table, validating each annotation line, rewriting class
IDs, and copying images under collision-free destination filenames.

Pure Python helpers become Lean functions; the filesystem is modelled by
explicit data (a dataset carries its optional manifest class list and, per
split, optional image-file lists and label-file association lists), and the
run returns `Except` with either an error message (the raised
`FileNotFoundError`) or the produced outputs plus the accounting summary.
-/

/-- A Python-dict lookup on an association list (first matching key wins;
the dicts modelled here always have distinct keys). -/
def dictGet {α β : Type} [DecidableEq α] (m : List (α × β)) (k : α) : Option β :=
  match m with
  | [] => none
  | (k', v) :: rest => if k = k' then some v else dictGet rest k

/-- The hardcoded synonym table (`label_mapping` in `combine_datasets`). -/
def label_mapping : List (String × String) :=
  [("ball", "ball"), ("Ball", "ball"), ("handball", "ball"),
   ("goalkeeper", "goalkeeper"), ("handballgoalkeeper", "goalkeeper"),
   ("players", "players"), ("player", "players"),
   ("handballplayer", "players"), ("Player", "players"),
   ("referees", "referees"), ("referee", "referees"),
   ("handballreferee", "referees"), ("referi", "referees")]

/-- `combine_labels`: map an old label to its canonical name, defaulting to
the old label when it is not in the table. -/
def combine_labels (old_label : String) (mapping : List (String × String)) : String :=
  (dictGet mapping old_label).getD old_label

/-- Tokenizer helper: split a character list on whitespace runs, discarding
empty tokens (the behaviour of Python's `str.split()` with no argument;
`strip()` before it is then a no-op). `cur` holds the current token reversed. -/
def splitTokensAux : List Char → List Char → List (List Char)
  | [], cur => if cur = [] then [] else [cur.reverse]
  | c :: rest, cur =>
    if c.isWhitespace then
      if cur = [] then splitTokensAux rest []
      else cur.reverse :: splitTokensAux rest []
    else splitTokensAux rest (c :: cur)

/-- `line.strip().split()` from the source. -/
def pySplit (s : String) : List String :=
  (splitTokensAux s.data []).map fun cs => String.mk cs

/-- Parse a nonempty all-digit character list as a natural number. -/
def parseDigits (cs : List Char) : Option Nat :=
  if cs.isEmpty then none
  else if cs.all (fun c => c.isDigit) then
    some (cs.foldl (fun a c => 10 * a + (c.toNat - 48)) 0)
  else none

/-- Python's `int(token)` on a whitespace-free token: an optional sign
followed by a nonempty digit string (digit-grouping underscores are not
modelled; the label files at issue never contain them). -/
def pyParseInt (s : String) : Option Int :=
  match s.data with
  | [] => none
  | c :: rest =>
    if c = '-' then (parseDigits rest).map (fun n => -(n : Int))
    else if c = '+' then (parseDigits rest).map (fun n => (n : Int))
    else (parseDigits (c :: rest)).map (fun n => (n : Int))

/-- Decimal digit character, `Char.ofNat (48 + n)` for `n < 10`. -/
def natDigitChar (n : Nat) : Char := Char.ofNat (48 + n)

/-- Fuel-driven decimal printer (structural recursion so that concrete
values reduce in the kernel). -/
def digitsAux : Nat → Nat → List Char
  | 0, _ => []
  | fuel + 1, n =>
    if n < 10 then [natDigitChar n]
    else digitsAux fuel (n / 10) ++ [natDigitChar (n % 10)]

/-- The decimal digits of `n`, most significant first. -/
def natToDigits (n : Nat) : List Char := digitsAux (n + 1) n

/-- Python's `str(n)` for a nonnegative integer. -/
def pyStrNat (n : Nat) : String := String.mk (natToDigits n)

/-- Python's `' '.join(parts)` (generalised over the separator). -/
def pyJoin (sep : String) : List String → String
  | [] => ""
  | [x] => x
  | x :: y :: rest => x ++ sep ++ pyJoin sep (y :: rest)

/-- The root part of `os.path.splitext`: drop the extension at the last dot,
unless every character before that dot is itself a dot (CPython's rule for
names like `.bashrc` or `..`). -/
def splitextRoot (s : String) : String :=
  let rev := s.data.reverse
  let spanned := rev.span (fun c => c ≠ '.')
  match spanned.2 with
  | [] => s
  | _ :: before => if before.all (fun c => c = '.') then s else String.mk before.reverse

/-- `is_valid_label_line`: tokenize, require at least 5 tokens, an integer
first token, and the parsed class ID within `[0, num_classes)`; returns the
verdict together with the warning message of the source. -/
def is_valid_label_line (line : String) (num_classes : Nat) : Bool × String :=
  let elements := pySplit line
  if elements.length < 5 then
    (false, "Label line does not have at least 5 elements.")
  else
    match pyParseInt (elements.headD "") with
    | none => (false, "Class ID is not an integer.")
    | some class_id =>
      if 0 ≤ class_id ∧ class_id < (num_classes : Int) then (true, "")
      else (false, "Class ID is out of valid range.")

/-- Python's `list.index` (first index of an element; only ever applied to
members, where Python would not raise). -/
def pyIndexOf (l : List String) (a : String) : Nat :=
  match l with
  | [] => 0
  | b :: rest => if b = a then 0 else pyIndexOf rest a + 1

/-- The inner loop of step 1 of `combine_datasets`: fold one dataset's class
list into the running combined class list, recording `idx ↦ new_class_id`
for each original class ID (`idx` is the running enumeration index). -/
def buildMapping : List String → Nat → List String → List String × List (Nat × Nat)
  | combined, _, [] => (combined, [])
  | combined, idx, class_name :: rest =>
    let new_label := combine_labels class_name label_mapping
    let combined2 := if new_label ∈ combined then combined else combined ++ [new_label]
    let r := buildMapping combined2 (idx + 1) rest
    (r.1, (idx, pyIndexOf combined2 new_label) :: r.2)

/-- Step 1 of `combine_datasets` over all datasets' class lists: the final
combined class list and one class mapping per dataset, in order. -/
def buildVocabAux : List String → List (List String) → List String × List (List (Nat × Nat))
  | combined, [] => (combined, [])
  | combined, classes :: rest =>
    let r1 := buildMapping combined 0 classes
    let r2 := buildVocabAux r1.1 rest
    (r2.1, r1.2 :: r2.2)

/-- The vocabulary pass on the declared class lists of all datasets. -/
def buildVocab (datasets : List (List String)) : List String × List (List (Nat × Nat)) :=
  buildVocabAux [] datasets

/-- Python dict membership/lookup `mapping[old_class_id]` where the parsed
class ID is an `int`: negative keys are never present. -/
def intLookup (mapping : List (Nat × Nat)) (k : Int) : Option Nat :=
  match k with
  | Int.ofNat n => dictGet mapping n
  | Int.negSucc _ => none

/-- Per-(dataset, split) counters of the summary dict. -/
structure SplitCounters where
  images : Nat := 0
  labels : Nat := 0
  missing_labels : Nat := 0
  invalid_labels : Nat := 0
deriving Repr, DecidableEq

/-- One emitted output unit: the copied image's destination filename, the
written label file's name, and the rewritten label lines. -/
structure OutUnit where
  img : String
  lbl : String
  lines : List String
deriving Repr, DecidableEq

/-- Outcome of processing one image of a split. -/
inductive ImageOutcome where
  | missingLabel
  | skippedNoValid (invalidDelta : Nat)
  | emitted (u : OutUnit) (invalidDelta : Nat)
deriving Repr, DecidableEq

/-- The destination image filename f-string
`f"{dataset_idx}_{split}_{img_file}"`. -/
def dst_img_filename (dataset_idx : Nat) (split : String) (img_file : String) : String :=
  pyStrNat dataset_idx ++ "_" ++ split ++ "_" ++ img_file

/-- Process one label line of the inner loop: validate it against the unified
vocabulary size; on success parse the class ID again and look it up in the
dataset's mapping, emitting the rewritten line. `none` covers both the
invalid-line and the mapping-miss branches (each increments
`invalid_labels` by one and drops the line). -/
def processLabelLine (mapping : List (Nat × Nat)) (num_classes : Nat) (line : String) :
    Option String :=
  if (is_valid_label_line line num_classes).1 then
    let elements := pySplit line
    match pyParseInt (elements.headD "") with
    | some old_class_id =>
      match intLookup mapping old_class_id with
      | some new_class_id =>
        some (pyJoin " " (pyStrNat new_class_id :: elements.tail))
      | none => none
    | none => none
  else none

/-- Fold the validator over a label file's lines: the surviving rewritten
lines in order, and the number of dropped lines. -/
def processImageLines (mapping : List (Nat × Nat)) (num_classes : Nat) :
    List String → List String × Nat
  | [] => ([], 0)
  | line :: rest =>
    let r := processImageLines mapping num_classes rest
    match processLabelLine mapping num_classes line with
    | some new_line => (new_line :: r.1, r.2)
    | none => (r.1, r.2 + 1)

/-- Process one image file: find the same-stem label file; if absent report
`missingLabel`; otherwise filter/rewrite its lines, and either skip the image
(zero surviving lines, one extra invalid increment) or emit the copied image
and the rewritten label file. -/
def processOneImage (dataset_idx : Nat) (split : String) (mapping : List (Nat × Nat))
    (num_classes : Nat) (labelFiles : List (String × List String)) (img_file : String) :
    ImageOutcome :=
  let label_filename := splitextRoot img_file ++ ".txt"
  match dictGet labelFiles label_filename with
  | none => .missingLabel
  | some label_lines =>
    let r := processImageLines mapping num_classes label_lines
    if r.1 = [] then .skippedNoValid (r.2 + 1)
    else
      let dst_img := dst_img_filename dataset_idx split img_file
      .emitted ⟨dst_img, splitextRoot dst_img ++ ".txt", r.1⟩ r.2

/-- Account one image's outcome into the running outputs and counters. -/
def imageStep (dataset_idx : Nat) (split : String) (mapping : List (Nat × Nat))
    (num_classes : Nat) (labelFiles : List (String × List String))
    (acc : List OutUnit × SplitCounters) (img_file : String) :
    List OutUnit × SplitCounters :=
  match processOneImage dataset_idx split mapping num_classes labelFiles img_file with
  | .missingLabel =>
    (acc.1, { acc.2 with missing_labels := acc.2.missing_labels + 1 })
  | .skippedNoValid d =>
    (acc.1, { acc.2 with invalid_labels := acc.2.invalid_labels + d })
  | .emitted u d =>
    (acc.1 ++ [u],
     { acc.2 with
        images := acc.2.images + 1
        labels := acc.2.labels + 1
        invalid_labels := acc.2.invalid_labels + d })

/-- Sequential loop over the image files of one split directory. -/
def processImagesAcc (dataset_idx : Nat) (split : String) (mapping : List (Nat × Nat))
    (num_classes : Nat) (labelFiles : List (String × List String)) :
    List OutUnit × SplitCounters → List String → List OutUnit × SplitCounters
  | acc, [] => acc
  | acc, f :: rest =>
    processImagesAcc dataset_idx split mapping num_classes labelFiles
      (imageStep dataset_idx split mapping num_classes labelFiles acc f) rest

/-- One split of a source dataset: the image filenames of its `images`
directory and the label files of its `labels` directory (`none` models a
missing directory, which the source skips with a message). -/
structure SplitDir where
  images : Option (List String) := none
  labels : Option (List (String × List String)) := none
deriving Repr, DecidableEq

/-- Process one (dataset, split) pair: skipped entirely when either
directory is missing, otherwise the image loop from empty accumulators. -/
def processSplit (dataset_idx : Nat) (split : String) (mapping : List (Nat × Nat))
    (num_classes : Nat) (sd : SplitDir) : List OutUnit × SplitCounters :=
  match sd.images, sd.labels with
  | some imgs, some lbls =>
    processImagesAcc dataset_idx split mapping num_classes lbls ([], {}) imgs
  | _, _ => ([], {})

/-- A source dataset: its path, its manifest's class list (`none` models a
missing `data.yaml`), and its three split directories. -/
structure Dataset where
  path : String
  data_yaml : Option (List String) := none
  train : SplitDir := {}
  valid : SplitDir := {}
  test : SplitDir := {}
deriving Repr, DecidableEq

/-- The fixed split enumeration `['train', 'valid', 'test']`. -/
def splitsList : List String := ["train", "valid", "test"]

/-- Process one dataset: its three splits in the fixed order, concatenating
emitted units and collecting the per-split counters. -/
def processDataset (dataset_idx : Nat) (mapping : List (Nat × Nat)) (num_classes : Nat)
    (ds : Dataset) : List OutUnit × List (String × SplitCounters) :=
  let t := processSplit dataset_idx "train" mapping num_classes ds.train
  let v := processSplit dataset_idx "valid" mapping num_classes ds.valid
  let te := processSplit dataset_idx "test" mapping num_classes ds.test
  (t.1 ++ v.1 ++ te.1, [("train", t.2), ("valid", v.2), ("test", te.2)])

/-- Step 2 of `combine_datasets`: all datasets in order, each with its own
class mapping, accumulating units and the per-dataset summary rows. -/
def processAll (mappings : List (List (Nat × Nat))) (num_classes : Nat) :
    Nat → List Dataset → List OutUnit × List (String × List (String × SplitCounters))
  | _, [] => ([], [])
  | dataset_idx, ds :: rest =>
    let r := processDataset dataset_idx (mappings.getD dataset_idx []) num_classes ds
    let rr := processAll mappings num_classes (dataset_idx + 1) rest
    (r.1 ++ rr.1, (ds.path, r.2) :: rr.2)

/-- The manifest-reading prefix of step 1: the class lists of all datasets,
or the `FileNotFoundError` raised at the first dataset whose `data.yaml`
is missing (before any output directory or file is created). -/
def readAllClasses : List Dataset → Except String (List (List String))
  | [] => .ok []
  | ds :: rest =>
    match ds.data_yaml with
    | none => .error ("data.yaml file not found in dataset: " ++ ds.path)
    | some classes =>
      match readAllClasses rest with
      | .ok css => .ok (classes :: css)
      | .error e => .error e

/-- The observable result of a successful run: the combined class list (also
the content of the written combined `data.yaml`), the emitted image/label
units in processing order, and the summary counters. -/
structure RunResult where
  classes : List String
  units : List OutUnit
  summary : List (String × List (String × SplitCounters))
deriving Repr, DecidableEq

/-- `combine_datasets`: the vocabulary pass (raising on a missing manifest,
before anything is written), then the I/O pass. An `Except.error` result
carries no outputs at all: nothing was written. -/
def combine_datasets (datasets : List Dataset) : Except String RunResult :=
  match readAllClasses datasets with
  | .error e => .error e
  | .ok classLists =>
    let vb := buildVocab classLists
    let pr := processAll vb.2 vb.1.length 0 datasets
    .ok ⟨vb.1, pr.1, pr.2⟩

/-- Dataset A of the spec's end-to-end scenario: classes `["ball","player"]`
and one image+label pair whose label line is `"1 0.5 0.5 0.1 0.1"`. -/
def dsA : Dataset :=
  { path := "A", data_yaml := some ["ball", "player"],
    train := { images := some ["imgA.jpg"],
               labels := some [("imgA.txt", ["1 0.5 0.5 0.1 0.1"])] } }

/-- Dataset B of the spec's end-to-end scenario: classes `["Ball","referee"]`
and one image+label pair whose label line is `"0 0.2 0.2 0.05 0.05"`. -/
def dsB : Dataset :=
  { path := "B", data_yaml := some ["Ball", "referee"],
    train := { images := some ["imgB.jpg"],
               labels := some [("imgB.txt", ["0 0.2 0.2 0.05 0.05"])] } }

/-- A dataset whose `data.yaml` is missing. -/
def dsNoManifest : Dataset := { path := "broken" }

/-- Value of a digit string (used to invert `natToDigits`). -/
def digitsVal (cs : List Char) : Nat :=
  cs.foldl (fun a c => 10 * a + (c.toNat - 48)) 0

/-- The result the code produces on the two scenario datasets (checked
against `combine_datasets` by `rfl` below). -/
def scenarioRun : RunResult :=
  { classes := ["ball", "players", "referees"],
    units := [⟨"0_train_imgA.jpg", "0_train_imgA.txt", ["1 0.5 0.5 0.1 0.1"]⟩,
              ⟨"1_train_imgB.jpg", "1_train_imgB.txt", ["0 0.2 0.2 0.05 0.05"]⟩],
    summary := [("A", [("train", ⟨1, 1, 0, 0⟩), ("valid", {}), ("test", {})]),
                ("B", [("train", ⟨1, 1, 0, 0⟩), ("valid", {}), ("test", {})])] }

/-- All target IDs of a class mapping lie below `C`. -/
def MappingBound (m : List (Nat × Nat)) (C : Nat) : Prop :=
  ∀ k v, dictGet m k = some v → v < C

/-- A rewritten label line: a class ID below `C` at its head, followed by
the passed-through geometry tokens. -/
def GoodLine (C : Nat) (line : String) : Prop :=
  ∃ id rest, id < C ∧ line = pyJoin " " (pyStrNat id :: rest)

/-- The invariant of every emitted output unit: the label filename shares
the image filename's stem, at least one line survives, and every line
starts with an in-range class ID. -/
def UnitOK (C : Nat) (u : OutUnit) : Prop :=
  u.lbl = splitextRoot u.img ++ ".txt" ∧ u.lines ≠ [] ∧ ∀ line ∈ u.lines, GoodLine C line

/-! ### Decimal printing lemmas -/

theorem natDigitChar_isDigit {n : Nat} (h : n < 10) : (natDigitChar n).isDigit = true := by
  interval_cases n <;> decide

theorem natDigitChar_toNat {n : Nat} (h : n < 10) : (natDigitChar n).toNat = 48 + n := by
  interval_cases n <;> decide

theorem digitsAux_irrel : ∀ (n f1 f2 : Nat), n < f1 → n < f2 →
    digitsAux f1 n = digitsAux f2 n := by
  intro n
  induction n using Nat.strong_induction_on with
  | _ n ih =>
    intro f1 f2 h1 h2
    obtain ⟨g1, rfl⟩ : ∃ k, f1 = k + 1 := ⟨f1 - 1, by omega⟩
    obtain ⟨g2, rfl⟩ : ∃ k, f2 = k + 1 := ⟨f2 - 1, by omega⟩
    simp only [digitsAux]
    split
    · rfl
    · rename_i h10
      have hd : n / 10 < n := Nat.div_lt_self (by omega) (by omega)
      rw [ih (n / 10) hd g1 g2 (by omega) (by omega)]

theorem natToDigits_eq (n : Nat) :
    natToDigits n =
      if n < 10 then [natDigitChar n]
      else natToDigits (n / 10) ++ [natDigitChar (n % 10)] := by
  show digitsAux (n + 1) n = _
  simp only [digitsAux]
  split
  · rfl
  · rename_i h10
    have hd : n / 10 < n := Nat.div_lt_self (by omega) (by omega)
    rw [digitsAux_irrel (n / 10) n (n / 10 + 1) (by omega) (by omega)]
    rfl

theorem natToDigits_all_digit : ∀ (n : Nat), ∀ c ∈ natToDigits n, c.isDigit = true := by
  intro n
  induction n using Nat.strong_induction_on with
  | _ n ih =>
    intro c hc
    rw [natToDigits_eq] at hc
    split at hc
    · rename_i h10
      simp only [List.mem_singleton] at hc
      exact hc ▸ natDigitChar_isDigit h10
    · rename_i h10
      rcases List.mem_append.1 hc with h | h
      · exact ih (n / 10) (Nat.div_lt_self (by omega) (by omega)) c h
      · simp only [List.mem_singleton] at h
        exact h ▸ natDigitChar_isDigit (Nat.mod_lt _ (by omega))

theorem natToDigits_ne_nil (n : Nat) : natToDigits n ≠ [] := by
  rw [natToDigits_eq]
  split
  · simp
  · simp

theorem underscore_not_mem_natToDigits (n : Nat) : '_' ∉ natToDigits n := by
  intro h
  have := natToDigits_all_digit n '_' h
  exact absurd this (by decide)

theorem digitsVal_natToDigits : ∀ n : Nat, digitsVal (natToDigits n) = n := by
  intro n
  induction n using Nat.strong_induction_on with
  | _ n ih =>
    rw [natToDigits_eq]
    split
    · rename_i h10
      simp only [digitsVal, List.foldl_cons, List.foldl_nil]
      rw [natDigitChar_toNat h10]
      omega
    · rename_i h10
      have hd : n / 10 < n := Nat.div_lt_self (by omega) (by omega)
      simp only [digitsVal, List.foldl_append, List.foldl_cons, List.foldl_nil]
      have hv := ih (n / 10) hd
      simp only [digitsVal] at hv
      rw [hv, natDigitChar_toNat (Nat.mod_lt _ (by omega))]
      omega

theorem natToDigits_inj {a b : Nat} (h : natToDigits a = natToDigits b) : a = b := by
  rw [← digitsVal_natToDigits a, h, digitsVal_natToDigits]

/-! ### String and list splitting lemmas -/

theorem strData_append (a b : String) : (a ++ b).data = a.data ++ b.data := by
  cases a
  cases b
  rfl

theorem strData_inj {a b : String} (h : a.data = b.data) : a = b := by
  cases a
  cases b
  exact congrArg String.mk h

theorem split_at_underscore :
    ∀ (a b x y : List Char), '_' ∉ a → '_' ∉ b →
      a ++ '_' :: x = b ++ '_' :: y → a = b ∧ x = y := by
  intro a
  induction a with
  | nil =>
    intro b x y _ hb h
    cases b with
    | nil =>
      simp only [List.nil_append, List.cons.injEq] at h
      exact ⟨rfl, h.2⟩
    | cons d b' =>
      simp only [List.nil_append, List.cons_append, List.cons.injEq] at h
      exact absurd (h.1 ▸ List.mem_cons_self d b') hb
  | cons c a' ih =>
    intro b x y ha hb h
    cases b with
    | nil =>
      simp only [List.cons_append, List.nil_append, List.cons.injEq] at h
      exact absurd (h.1 ▸ List.mem_cons_self c a') ha
    | cons d b' =>
      simp only [List.cons_append, List.cons.injEq] at h
      have ha' : '_' ∉ a' := fun hm => ha (List.mem_cons_of_mem _ hm)
      have hb' : '_' ∉ b' := fun hm => hb (List.mem_cons_of_mem _ hm)
      obtain ⟨rfl, h2⟩ := h
      obtain ⟨rfl, rfl⟩ := ih b' x y ha' hb' h2
      exact ⟨rfl, rfl⟩

theorem append_cancel_right_str {a b t : String} (h : a ++ t = b ++ t) : a = b := by
  have hd : a.data ++ t.data = b.data ++ t.data := by
    rw [← strData_append, ← strData_append, h]
  have hl : a.data.length = b.data.length := by
    have := congrArg List.length hd
    simp only [List.length_append] at this
    omega
  exact strData_inj (List.append_inj_left hd hl)

/-! ### `list.index` lemmas -/

theorem pyIndexOf_append_of_mem :
    ∀ (l t : List String) (a : String), a ∈ l → pyIndexOf (l ++ t) a = pyIndexOf l a := by
  intro l
  induction l with
  | nil => intro t a h; cases h
  | cons b l' ih =>
    intro t a h
    simp only [List.cons_append, pyIndexOf]
    split
    · rfl
    · rename_i hne
      have ha' : a ∈ l' := by
        rcases List.mem_cons.1 h with rfl | h' <;> [exact absurd rfl hne; exact h']
      exact congrArg (· + 1) (ih t a ha')

theorem pyIndexOf_lt_length :
    ∀ (l : List String) (a : String), a ∈ l → pyIndexOf l a < l.length := by
  intro l
  induction l with
  | nil => intro a h; cases h
  | cons b l' ih =>
    intro a h
    simp only [pyIndexOf, List.length_cons]
    split
    · omega
    · rename_i hne
      have ha' : a ∈ l' := by
        rcases List.mem_cons.1 h with rfl | h' <;> [exact absurd rfl hne; exact h']
      have := ih a ha'
      omega

/-! ### Vocabulary pass lemmas -/

theorem mem_vocab_step (c : List String) (nl : String) :
    nl ∈ (if nl ∈ c then c else c ++ [nl]) := by
  split
  · assumption
  · simp

theorem buildMapping_prefix :
    ∀ (cs c : List String) (idx : Nat), ∃ t, (buildMapping c idx cs).1 = c ++ t := by
  intro cs
  induction cs with
  | nil => intro c idx; exact ⟨[], by simp [buildMapping]⟩
  | cons class_name rest ih =>
    intro c idx
    simp only [buildMapping]
    by_cases hmem : combine_labels class_name label_mapping ∈ c
    · rw [if_pos hmem]
      exact ih c (idx + 1)
    · rw [if_neg hmem]
      obtain ⟨t, ht⟩ := ih (c ++ [combine_labels class_name label_mapping]) (idx + 1)
      exact ⟨[combine_labels class_name label_mapping] ++ t, by rw [ht, List.append_assoc]⟩

theorem buildMapping_lookup :
    ∀ (cs c : List String) (idx j : Nat), j < cs.length →
      dictGet (buildMapping c idx cs).2 (idx + j) =
        some (pyIndexOf (buildMapping c idx cs).1
          (combine_labels (cs.getD j "") label_mapping)) ∧
      combine_labels (cs.getD j "") label_mapping ∈ (buildMapping c idx cs).1 := by
  intro cs
  induction cs with
  | nil => intro c idx j hj; simp at hj
  | cons class_name rest ih =>
    intro c idx j hj
    simp only [buildMapping]
    cases j with
    | zero =>
      simp only [List.getD_cons_zero, Nat.add_zero, dictGet, if_true]
      obtain ⟨t, ht⟩ :=
        buildMapping_prefix rest
          (if combine_labels class_name label_mapping ∈ c then c
           else c ++ [combine_labels class_name label_mapping]) (idx + 1)
      have hmem := mem_vocab_step c (combine_labels class_name label_mapping)
      constructor
      · rw [ht, pyIndexOf_append_of_mem _ _ _ hmem]
      · rw [ht]
        exact List.mem_append_left _ hmem
    | succ j' =>
      have hkey : idx + (j' + 1) = (idx + 1) + j' := by omega
      have hne : idx + (j' + 1) ≠ idx := by omega
      simp only [List.getD_cons_succ, dictGet, if_neg hne]
      rw [hkey]
      exact ih _ (idx + 1) j' (by simpa using hj)

theorem buildMapping_keys :
    ∀ (cs c : List String) (idx k : Nat),
      (dictGet (buildMapping c idx cs).2 k).isSome = true ↔
        (idx ≤ k ∧ k < idx + cs.length) := by
  intro cs
  induction cs with
  | nil =>
    intro c idx k
    simp only [buildMapping, dictGet, Option.isSome_none, List.length_nil]
    constructor
    · intro h; cases h
    · intro h; omega
  | cons class_name rest ih =>
    intro c idx k
    simp only [buildMapping, dictGet, List.length_cons]
    by_cases hk : k = idx
    · subst hk
      simp only [if_pos rfl, Option.isSome_some]
      constructor
      · intro _; omega
      · intro _; rfl
    · rw [if_neg hk]
      rw [ih _ (idx + 1) k]
      omega

theorem buildMapping_values :
    ∀ (cs c : List String) (idx k v : Nat),
      dictGet (buildMapping c idx cs).2 k = some v →
      ∃ cls, cls ∈ (buildMapping c idx cs).1 ∧
        v = pyIndexOf (buildMapping c idx cs).1 cls := by
  intro cs
  induction cs with
  | nil => intro c idx k v h; simp [buildMapping, dictGet] at h
  | cons class_name rest ih =>
    intro c idx k v h
    simp only [buildMapping, dictGet] at h ⊢
    by_cases hk : k = idx
    · rw [if_pos hk] at h
      obtain ⟨t, ht⟩ :=
        buildMapping_prefix rest
          (if combine_labels class_name label_mapping ∈ c then c
           else c ++ [combine_labels class_name label_mapping]) (idx + 1)
      have hmem := mem_vocab_step c (combine_labels class_name label_mapping)
      refine ⟨combine_labels class_name label_mapping, ?_, ?_⟩
      · rw [ht]; exact List.mem_append_left _ hmem
      · rw [ht, pyIndexOf_append_of_mem _ _ _ hmem]
        simpa using h.symm
    · rw [if_neg hk] at h
      exact ih _ (idx + 1) k v h

theorem buildVocabAux_prefix :
    ∀ (dss : List (List String)) (c : List String),
      ∃ t, (buildVocabAux c dss).1 = c ++ t := by
  intro dss
  induction dss with
  | nil => intro c; exact ⟨[], by simp [buildVocabAux]⟩
  | cons classes rest ih =>
    intro c
    simp only [buildVocabAux]
    obtain ⟨t1, ht1⟩ := buildMapping_prefix classes c 0
    obtain ⟨t2, ht2⟩ := ih (buildMapping c 0 classes).1
    exact ⟨t1 ++ t2, by rw [ht2, ht1, List.append_assoc]⟩

theorem buildVocabAux_lookup :
    ∀ (dss : List (List String)) (c : List String) (di j : Nat),
      di < dss.length → j < (dss.getD di []).length →
      dictGet ((buildVocabAux c dss).2.getD di []) j =
        some (pyIndexOf (buildVocabAux c dss).1
          (combine_labels ((dss.getD di []).getD j "") label_mapping)) ∧
      combine_labels ((dss.getD di []).getD j "") label_mapping ∈ (buildVocabAux c dss).1 := by
  intro dss
  induction dss with
  | nil => intro c di j hdi hj; simp at hdi
  | cons classes rest ih =>
    intro c di j hdi hj
    cases di with
    | zero =>
      simp only [buildVocabAux, List.getD_cons_zero] at hj ⊢
      have hm := buildMapping_lookup classes c 0 j hj
      rw [Nat.zero_add] at hm
      obtain ⟨t, ht⟩ := buildVocabAux_prefix rest (buildMapping c 0 classes).1
      refine ⟨?_, ?_⟩
      · rw [hm.1, ht, pyIndexOf_append_of_mem _ _ _ hm.2]
      · rw [ht]
        exact List.mem_append_left _ hm.2
    | succ di' =>
      simp only [buildVocabAux, List.getD_cons_succ] at hj ⊢
      exact ih (buildMapping c 0 classes).1 di' j (by simpa using hdi) hj

theorem buildVocabAux_keys :
    ∀ (dss : List (List String)) (c : List String) (di k : Nat),
      di < dss.length →
      ((dictGet ((buildVocabAux c dss).2.getD di []) k).isSome = true ↔
        k < (dss.getD di []).length) := by
  intro dss
  induction dss with
  | nil => intro c di k hdi; simp at hdi
  | cons classes rest ih =>
    intro c di k hdi
    cases di with
    | zero =>
      simp only [List.getD_cons_zero, buildVocabAux]
      rw [buildMapping_keys classes c 0 k]
      omega
    | succ di' =>
      simp only [List.getD_cons_succ, buildVocabAux]
      exact ih (buildMapping c 0 classes).1 di' k (by simpa using hdi)

theorem buildVocabAux_values :
    ∀ (dss : List (List String)) (c : List String) (di k v : Nat),
      dictGet ((buildVocabAux c dss).2.getD di []) k = some v →
      ∃ cls, cls ∈ (buildVocabAux c dss).1 ∧
        v = pyIndexOf (buildVocabAux c dss).1 cls := by
  intro dss
  induction dss with
  | nil => intro c di k v h; simp [buildVocabAux, dictGet] at h
  | cons classes rest ih =>
    intro c di k v h
    cases di with
    | zero =>
      simp only [List.getD_cons_zero, buildVocabAux] at h ⊢
      obtain ⟨cls, hmem, hv⟩ := buildMapping_values classes c 0 k v h
      obtain ⟨t, ht⟩ := buildVocabAux_prefix rest (buildMapping c 0 classes).1
      refine ⟨cls, ?_, ?_⟩
      · rw [ht]; exact List.mem_append_left _ hmem
      · rw [ht, pyIndexOf_append_of_mem _ _ _ hmem]; exact hv
    | succ di' =>
      simp only [List.getD_cons_succ, buildVocabAux] at h ⊢
      exact ih (buildMapping c 0 classes).1 di' k v h

/-- Every value stored in any class mapping is a valid index into the
combined class list. -/
theorem buildVocab_values_lt (dss : List (List String)) (di k v : Nat)
    (h : dictGet ((buildVocab dss).2.getD di []) k = some v) :
    v < (buildVocab dss).1.length := by
  obtain ⟨cls, hmem, hv⟩ := buildVocabAux_values dss [] di k v h
  exact hv ▸ pyIndexOf_lt_length _ cls hmem

/-! ### Validator lemmas -/

theorem validator_iff (line : String) (n : Nat) :
    (is_valid_label_line line n).1 = true ↔
      5 ≤ (pySplit line).length ∧
        ∃ k : Int, pyParseInt ((pySplit line).headD "") = some k ∧ 0 ≤ k ∧ k < (n : Int) := by
  simp only [is_valid_label_line]
  split
  · rename_i h5
    constructor
    · intro h; exact Bool.noConfusion h
    · rintro ⟨h5', -⟩; omega
  · rename_i h5
    split
    · rename_i hnone
      constructor
      · intro h; exact Bool.noConfusion h
      · rintro ⟨-, k, hk, -⟩
        rw [hnone] at hk
        cases hk
    · rename_i k hsome
      split
      · rename_i hrange
        constructor
        · intro _; exact ⟨by omega, k, hsome, hrange.1, hrange.2⟩
        · intro _; rfl
      · rename_i hrange
        constructor
        · intro h; exact Bool.noConfusion h
        · rintro ⟨-, k', hk', h0, hlt⟩
          rw [hsome] at hk'
          injection hk' with hk'
          subst hk'
          exact absurd ⟨h0, hlt⟩ hrange

/-- Characterisation of an accepted-and-rewritten label line: the class ID
token is replaced by the looked-up unified ID and the remaining tokens are
joined back verbatim. -/
theorem processLabelLine_some {mapping : List (Nat × Nat)} {n : Nat} {line out : String}
    (h : processLabelLine mapping n line = some out) :
    (is_valid_label_line line n).1 = true ∧
    ∃ k new_id, pyParseInt ((pySplit line).headD "") = some k ∧
      intLookup mapping k = some new_id ∧
      out = pyJoin " " (pyStrNat new_id :: (pySplit line).tail) := by
  simp only [processLabelLine] at h
  split at h
  · rename_i hvalid
    refine ⟨hvalid, ?_⟩
    split at h
    · rename_i k hk
      split at h
      · rename_i new_id hid
        injection h with h
        exact ⟨k, new_id, hk, hid, h.symm⟩
      · cases h
    · cases h
  · cases h

/-! ### Pipeline soundness lemmas -/

theorem intLookup_bound {m : List (Nat × Nat)} {C : Nat} {k : Int} {v : Nat}
    (hb : MappingBound m C) (h : intLookup m k = some v) : v < C := by
  cases k with
  | ofNat n => exact hb n v h
  | negSucc n => cases h

theorem processLabelLine_good {m : List (Nat × Nat)} {C n : Nat} {line out : String}
    (hb : MappingBound m C) (h : processLabelLine m n line = some out) : GoodLine C out := by
  obtain ⟨-, k, new_id, -, hid, hout⟩ := processLabelLine_some h
  exact ⟨new_id, (pySplit line).tail, intLookup_bound hb hid, hout⟩

theorem processImageLines_mem {m : List (Nat × Nat)} {n : Nat} :
    ∀ (lines : List String) (out : String), out ∈ (processImageLines m n lines).1 →
      ∃ line ∈ lines, processLabelLine m n line = some out := by
  intro lines
  induction lines with
  | nil => intro out h; cases h
  | cons line rest ih =>
    intro out h
    simp only [processImageLines] at h
    split at h
    · rename_i nl hnl
      rcases List.mem_cons.1 h with rfl | h'
      · exact ⟨line, List.mem_cons_self _ _, hnl⟩
      · obtain ⟨l, hl, he⟩ := ih out h'
        exact ⟨l, List.mem_cons_of_mem _ hl, he⟩
    · obtain ⟨l, hl, he⟩ := ih out h
      exact ⟨l, List.mem_cons_of_mem _ hl, he⟩

theorem processOneImage_emitted {di : Nat} {sp : String} {m : List (Nat × Nat)} {n : Nat}
    {lbls : List (String × List String)} {f : String} {u : OutUnit} {d : Nat}
    (h : processOneImage di sp m n lbls f = .emitted u d) :
    u.img = dst_img_filename di sp f ∧
    u.lbl = splitextRoot u.img ++ ".txt" ∧
    u.lines ≠ [] ∧
    ∃ ls, dictGet lbls (splitextRoot f ++ ".txt") = some ls ∧
      u.lines = (processImageLines m n ls).1 := by
  simp only [processOneImage] at h
  split at h
  · cases h
  · rename_i ls hls
    split at h
    · cases h
    · rename_i hne
      injection h with h1 h2
      subst h1
      exact ⟨rfl, rfl, hne, ls, hls, rfl⟩

theorem imageStep_units {di : Nat} {sp : String} {m : List (Nat × Nat)} {n C : Nat}
    {lbls : List (String × List String)} {acc : List OutUnit × SplitCounters} {f : String}
    (hb : MappingBound m C) (hacc : ∀ u ∈ acc.1, UnitOK C u) :
    ∀ u ∈ (imageStep di sp m n lbls acc f).1, UnitOK C u := by
  intro u hu
  simp only [imageStep] at hu
  split at hu
  · exact hacc u hu
  · exact hacc u hu
  · rename_i u' d hpo
    rcases List.mem_append.1 hu with h | h
    · exact hacc u h
    · obtain rfl := List.mem_singleton.1 h
      obtain ⟨-, hlbl, hne, ls, -, hlines⟩ := processOneImage_emitted hpo
      refine ⟨hlbl, hne, ?_⟩
      intro line hline
      rw [hlines] at hline
      obtain ⟨l, -, hsome⟩ := processImageLines_mem ls line hline
      exact processLabelLine_good hb hsome

theorem processImagesAcc_units {di : Nat} {sp : String} {m : List (Nat × Nat)} {n C : Nat}
    {lbls : List (String × List String)} (hb : MappingBound m C) :
    ∀ (files : List String) (acc : List OutUnit × SplitCounters),
      (∀ u ∈ acc.1, UnitOK C u) →
      ∀ u ∈ (processImagesAcc di sp m n lbls acc files).1, UnitOK C u := by
  intro files
  induction files with
  | nil => intro acc hacc; exact hacc
  | cons f rest ih =>
    intro acc hacc
    exact ih _ (imageStep_units hb hacc)

theorem processSplit_units {di : Nat} {sp : String} {m : List (Nat × Nat)} {n C : Nat}
    {sd : SplitDir} (hb : MappingBound m C) :
    ∀ u ∈ (processSplit di sp m n sd).1, UnitOK C u := by
  intro u hu
  simp only [processSplit] at hu
  split at hu
  · exact processImagesAcc_units hb _ _ (by intro u h; cases h) u hu
  · cases hu

theorem processDataset_units {di : Nat} {m : List (Nat × Nat)} {n C : Nat} {ds : Dataset}
    (hb : MappingBound m C) :
    ∀ u ∈ (processDataset di m n ds).1, UnitOK C u := by
  intro u hu
  simp only [processDataset] at hu
  rcases List.mem_append.1 hu with h | h
  · rcases List.mem_append.1 h with h' | h'
    · exact processSplit_units hb u h'
    · exact processSplit_units hb u h'
  · exact processSplit_units hb u h

theorem processAll_units {mappings : List (List (Nat × Nat))} {n C : Nat}
    (hb : ∀ i, MappingBound (mappings.getD i []) C) :
    ∀ (di0 : Nat) (dss : List Dataset),
      ∀ u ∈ (processAll mappings n di0 dss).1, UnitOK C u := by
  intro di0 dss
  induction dss generalizing di0 with
  | nil => intro u hu; cases hu
  | cons ds rest ih =>
    intro u hu
    simp only [processAll] at hu
    rcases List.mem_append.1 hu with h | h
    · exact processDataset_units (hb di0) u h
    · exact ih (di0 + 1) u h

/-- Every unit emitted by a successful run satisfies the output invariant
with respect to the run's combined class list. -/
theorem combine_ok_units {datasets : List Dataset} {r : RunResult}
    (h : combine_datasets datasets = Except.ok r) :
    ∀ u ∈ r.units, UnitOK r.classes.length u := by
  simp only [combine_datasets] at h
  split at h
  · cases h
  · rename_i classLists hread
    injection h with h
    subst h
    refine processAll_units ?_ 0 datasets
    intro i k v hv
    exact buildVocab_values_lt classLists i k v hv

/-! ### Counter lemmas -/

theorem imageStep_images_eq_labels {di : Nat} {sp : String} {m : List (Nat × Nat)} {n : Nat}
    {lbls : List (String × List String)} {acc : List OutUnit × SplitCounters} {f : String}
    (hacc : acc.2.images = acc.2.labels) :
    (imageStep di sp m n lbls acc f).2.images = (imageStep di sp m n lbls acc f).2.labels := by
  simp only [imageStep]
  split
  · exact hacc
  · exact hacc
  · simp only []
    omega

theorem processImagesAcc_images_eq_labels {di : Nat} {sp : String} {m : List (Nat × Nat)}
    {n : Nat} {lbls : List (String × List String)} :
    ∀ (files : List String) (acc : List OutUnit × SplitCounters),
      acc.2.images = acc.2.labels →
      (processImagesAcc di sp m n lbls acc files).2.images =
        (processImagesAcc di sp m n lbls acc files).2.labels := by
  intro files
  induction files with
  | nil => intro acc hacc; exact hacc
  | cons f rest ih =>
    intro acc hacc
    exact ih _ (imageStep_images_eq_labels hacc)

theorem processSplit_images_eq_labels {di : Nat} {sp : String} {m : List (Nat × Nat)}
    {n : Nat} {sd : SplitDir} :
    (processSplit di sp m n sd).2.images = (processSplit di sp m n sd).2.labels := by
  simp only [processSplit]
  split
  · exact processImagesAcc_images_eq_labels _ _ rfl
  · rfl

theorem processDataset_images_eq_labels {di : Nat} {m : List (Nat × Nat)} {n : Nat}
    {ds : Dataset} :
    ∀ sc ∈ (processDataset di m n ds).2, sc.2.images = sc.2.labels := by
  intro sc hsc
  simp only [processDataset, List.mem_cons, List.not_mem_nil, or_false] at hsc
  rcases hsc with rfl | rfl | rfl
  · exact processSplit_images_eq_labels
  · exact processSplit_images_eq_labels
  · exact processSplit_images_eq_labels

theorem processAll_images_eq_labels {mappings : List (List (Nat × Nat))} {n : Nat} :
    ∀ (di0 : Nat) (dss : List Dataset),
      ∀ row ∈ (processAll mappings n di0 dss).2, ∀ sc ∈ row.2,
        sc.2.images = sc.2.labels := by
  intro di0 dss
  induction dss generalizing di0 with
  | nil => intro row hrow; cases hrow
  | cons ds rest ih =>
    intro row hrow sc hsc
    simp only [processAll] at hrow
    rcases List.mem_cons.1 hrow with rfl | h
    · exact processDataset_images_eq_labels sc hsc
    · exact ih (di0 + 1) row h sc hsc

/-! ### Missing-manifest lemma -/

theorem readAllClasses_missing :
    ∀ (datasets : List Dataset) (ds : Dataset), ds ∈ datasets → ds.data_yaml = none →
      ∃ e, readAllClasses datasets = Except.error e := by
  intro datasets
  induction datasets with
  | nil => intro ds h; cases h
  | cons d rest ih =>
    intro ds hmem hnone
    rcases List.mem_cons.1 hmem with rfl | h
    · refine ⟨"data.yaml file not found in dataset: " ++ ds.path, ?_⟩
      simp only [readAllClasses, hnone]
    · cases hd : d.data_yaml with
      | none =>
        exact ⟨"data.yaml file not found in dataset: " ++ d.path, by
          simp only [readAllClasses, hd]⟩
      | some classes =>
        obtain ⟨e, he⟩ := ih ds h hnone
        refine ⟨e, ?_⟩
        simp only [readAllClasses, hd, he]

/-! ### Destination filename lemmas -/

theorem dst_img_filename_data (i : Nat) (s f : String) :
    (dst_img_filename i s f).data = natToDigits i ++ '_' :: (s.data ++ '_' :: f.data) := by
  have h1 : (pyStrNat i).data = natToDigits i := rfl
  have h2 : ("_" : String).data = ['_'] := rfl
  simp only [dst_img_filename, strData_append, h1, h2, List.append_assoc,
    List.singleton_append, List.cons_append, List.nil_append]

theorem splitsList_no_underscore : ∀ t ∈ splitsList, '_' ∉ t.data := by
  intro t ht
  simp only [splitsList, List.mem_cons, List.not_mem_nil, or_false] at ht
  rcases ht with rfl | rfl | rfl <;> decide

/-! ### Claim theorems -/

/-- C1 (counterexample): on the two scenario datasets the code does NOT
produce the unified vocabulary `["ball","player","referee"]` — the synonym
table rewrites `player` to `players` and `referee` to `referees`. -/
theorem scenario_vocab_ne_claimed :
    (combine_datasets [dsA, dsB]).toOption.map RunResult.classes ≠
      some ["ball", "player", "referee"] := by
  decide

/-- C1 (amended): processing dataset A then B produces the unified
vocabulary `["ball","players","referees"]`, rewrites A's line to
`"1 0.5 0.5 0.1 0.1"` and B's line to `"0 0.2 0.2 0.05 0.05"` (and the
respective images are copied, one per dataset, in the train split). -/
theorem scenario_run_result : combine_datasets [dsA, dsB] = Except.ok scenarioRun := by
  rfl

/-- C2: for every dataset index and every index `j` into that dataset's
declared class list, the class mapping built by the vocabulary pass has an
entry for `j` (namely the index of the normalised name in the combined
list), and two declared classes whose raw names normalise to the same
canonical name receive the same unified ID. -/
theorem vocab_total_and_merge (dss : List (List String)) :
    (∀ di j, di < dss.length → j < (dss.getD di []).length →
      dictGet ((buildVocab dss).2.getD di []) j =
        some (pyIndexOf (buildVocab dss).1
          (combine_labels ((dss.getD di []).getD j "") label_mapping))) ∧
    (∀ di j di' j', di < dss.length → j < (dss.getD di []).length →
      di' < dss.length → j' < (dss.getD di' []).length →
      combine_labels ((dss.getD di []).getD j "") label_mapping =
        combine_labels ((dss.getD di' []).getD j' "") label_mapping →
      dictGet ((buildVocab dss).2.getD di []) j =
        dictGet ((buildVocab dss).2.getD di' []) j') := by
  simp only [buildVocab]
  constructor
  · intro di j hdi hj
    exact (buildVocabAux_lookup dss [] di j hdi hj).1
  · intro di j di' j' hdi hj hdi' hj' heq
    rw [(buildVocabAux_lookup dss [] di j hdi hj).1,
        (buildVocabAux_lookup dss [] di' j' hdi' hj').1, heq]

/-- C2 witness: in the scenario datasets, `ball` (dataset 0, class 0) and
`Ball` (dataset 1, class 0) normalise alike and receive the same ID. -/
theorem vocab_total_and_merge_witness :
    dictGet ((buildVocab [["ball", "player"], ["Ball", "referee"]]).2.getD 0 []) 0 =
      dictGet ((buildVocab [["ball", "player"], ["Ball", "referee"]]).2.getD 1 []) 0 :=
  (vocab_total_and_merge [["ball", "player"], ["Ball", "referee"]]).2 0 0 1 0
    (by decide) (by decide) (by decide) (by decide) (by decide)

/-- C3: the validator accepts a line exactly when it has at least 5
whitespace-separated tokens whose first parses as an integer within
`[0, num_classes)`; and a line that survives rewriting is the looked-up
unified ID followed by the original tokens after the first, joined
verbatim. -/
theorem validator_accepts_iff_and_passthrough (line : String) (n : Nat) :
    ((is_valid_label_line line n).1 = true ↔
      5 ≤ (pySplit line).length ∧
        ∃ k : Int, pyParseInt ((pySplit line).headD "") = some k ∧ 0 ≤ k ∧ k < (n : Int)) ∧
    (∀ (mapping : List (Nat × Nat)) (out : String),
      processLabelLine mapping n line = some out →
      ∃ k new_id, pyParseInt ((pySplit line).headD "") = some k ∧
        intLookup mapping k = some new_id ∧
        out = pyJoin " " (pyStrNat new_id :: (pySplit line).tail)) :=
  ⟨validator_iff line n, fun _ _ h => (processLabelLine_some h).2⟩

/-- C3 witness: the line `"1 0.5 0.5 0.1 0.1"` under mapping `1 ↦ 2` is
rewritten to `"2 0.5 0.5 0.1 0.1"`, geometry tokens untouched. -/
theorem validator_accepts_iff_and_passthrough_witness :
    ∃ k new_id, pyParseInt ((pySplit "1 0.5 0.5 0.1 0.1").headD "") = some k ∧
      intLookup [(1, 2)] k = some new_id ∧
      "2 0.5 0.5 0.1 0.1" = pyJoin " " (pyStrNat new_id :: (pySplit "1 0.5 0.5 0.1 0.1").tail) :=
  (validator_accepts_iff_and_passthrough "1 0.5 0.5 0.1 0.1" 3).2 [(1, 2)]
    "2 0.5 0.5 0.1 0.1" (by rfl)

/-- C4 (counterexample): the mapping-miss branch is reachable for a
validator-accepted line. With datasets `[["ball"], ["referee","goalkeeper"]]`
the unified vocabulary has 3 entries, so the validator accepts class ID 2 in
dataset 0, whose mapping only covers ID 0 — the lookup misses and the line
is dropped. -/
theorem mapping_miss_reachable :
    (is_valid_label_line "2 0.1 0.1 0.1 0.1"
        (buildVocab [["ball"], ["referee", "goalkeeper"]]).1.length).1 = true ∧
    intLookup ((buildVocab [["ball"], ["referee", "goalkeeper"]]).2.getD 0 []) 2 = none ∧
    processLabelLine ((buildVocab [["ball"], ["referee", "goalkeeper"]]).2.getD 0 [])
      (buildVocab [["ball"], ["referee", "goalkeeper"]]).1.length "2 0.1 0.1 0.1 0.1" =
      none := by
  decide

/-- C4 (amended): for a validator-accepted label line of dataset `di`, the
dataset's class mapping has an entry for the parsed class ID exactly when
that ID is below the dataset's own declared class count; accepted IDs in
`[declared count, unified vocabulary size)` miss the mapping (and the source
then counts the line as invalid). -/
theorem mapping_entry_iff_below_declared (dss : List (List String)) (di : Nat)
    (line : String) (k : Int) (hdi : di < dss.length)
    (hacc : (is_valid_label_line line (buildVocab dss).1.length).1 = true)
    (hk : pyParseInt ((pySplit line).headD "") = some k) :
    (intLookup ((buildVocab dss).2.getD di []) k).isSome = true ↔
      k.toNat < (dss.getD di []).length := by
  have h0 : 0 ≤ k := by
    obtain ⟨-, k', hk', h0, -⟩ := (validator_iff line _).1 hacc
    have hkk : some k = some k' := hk ▸ hk'
    injection hkk with hkk
    exact hkk ▸ h0
  obtain ⟨n, rfl⟩ : ∃ n : Nat, k = (n : Int) := ⟨k.toNat, (Int.toNat_of_nonneg h0).symm⟩
  have hx : intLookup ((buildVocab dss).2.getD di []) (n : Int) =
      dictGet ((buildVocab dss).2.getD di []) n := rfl
  rw [hx, Int.toNat_natCast]
  exact buildVocabAux_keys dss [] di n hdi

/-- C4 witness: class ID 0 of dataset 0 is accepted and below the declared
count, and indeed has a mapping entry. -/
theorem mapping_entry_iff_below_declared_witness :
    (intLookup ((buildVocab [["ball"], ["referee", "goalkeeper"]]).2.getD 0 []) 0).isSome =
        true ↔
      (0 : Int).toNat < ([["ball"], ["referee", "goalkeeper"]].getD 0 []).length :=
  mapping_entry_iff_below_declared [["ball"], ["referee", "goalkeeper"]] 0
    "0 0.1 0.1 0.1 0.1" 0 (by decide) (by decide) (by rfl)

/-- C5: every target ID stored in any class mapping is a valid index into
the unified class list, and every line of every written output label file
starts with a class ID below the unified vocabulary size. -/
theorem id_range_invariant (dss : List (List String)) (datasets : List Dataset)
    (r : RunResult) (h : combine_datasets datasets = Except.ok r) :
    (∀ di k v, dictGet ((buildVocab dss).2.getD di []) k = some v →
      v < (buildVocab dss).1.length) ∧
    (∀ u ∈ r.units, ∀ line ∈ u.lines,
      ∃ id rest, id < r.classes.length ∧ line = pyJoin " " (pyStrNat id :: rest)) := by
  constructor
  · intro di k v hv
    exact buildVocab_values_lt dss di k v hv
  · intro u hu line hl
    obtain ⟨-, -, hg⟩ := combine_ok_units h u hu
    exact hg line hl

/-- C5 witness. -/
theorem id_range_invariant_witness : 0 < (buildVocab [["ball"]]).1.length :=
  (id_range_invariant [["ball"]] [dsA, dsB] scenarioRun (by rfl)).1 0 0 0 (by decide)

/-- C6: an image whose label file yields zero surviving rewritten lines is
skipped entirely — no output unit is produced — and the split's
`invalid_labels` counter receives one increment beyond the per-line ones. -/
theorem drop_on_empty (di : Nat) (sp : String) (m : List (Nat × Nat)) (n : Nat)
    (lbls : List (String × List String)) (img : String) (ls : List String)
    (acc : List OutUnit × SplitCounters)
    (hfound : dictGet lbls (splitextRoot img ++ ".txt") = some ls)
    (hempty : (processImageLines m n ls).1 = []) :
    processOneImage di sp m n lbls img =
      ImageOutcome.skippedNoValid ((processImageLines m n ls).2 + 1) ∧
    imageStep di sp m n lbls acc img =
      (acc.1, { acc.2 with
                invalid_labels := acc.2.invalid_labels + ((processImageLines m n ls).2 + 1) }) := by
  have h1 : processOneImage di sp m n lbls img =
      ImageOutcome.skippedNoValid ((processImageLines m n ls).2 + 1) := by
    simp only [processOneImage, hfound]
    rw [if_pos hempty]
  refine ⟨h1, ?_⟩
  simp only [imageStep, h1]

/-- C6 witness: a label file with one out-of-range line (`99` against a
3-class vocabulary) produces no output and two invalid increments. -/
theorem drop_on_empty_witness :
    processOneImage 0 "train" [] 3 [("a.txt", ["99 0.1 0.2 0.3 0.4"])] "a.jpg" =
      ImageOutcome.skippedNoValid 2 ∧
    imageStep 0 "train" [] 3 [("a.txt", ["99 0.1 0.2 0.3 0.4"])] ([], {}) "a.jpg" =
      ([], { invalid_labels := 2 }) :=
  drop_on_empty 0 "train" [] 3 [("a.txt", ["99 0.1 0.2 0.3 0.4"])] "a.jpg"
    ["99 0.1 0.2 0.3 0.4"] ([], {}) (by rfl) (by rfl)

/-- C7: after a successful run, an output image whose stem is `s` exists
exactly when an output label file `s.txt` with at least one line exists —
the two are emitted together, never separately. -/
theorem no_orphan_iff (datasets : List Dataset) (r : RunResult) (s : String)
    (h : combine_datasets datasets = Except.ok r) :
    (∃ u ∈ r.units, splitextRoot u.img = s) ↔
      (∃ u ∈ r.units, u.lbl = s ++ ".txt" ∧ u.lines ≠ []) := by
  have hok := combine_ok_units h
  constructor
  · rintro ⟨u, hu, hs⟩
    obtain ⟨hlbl, hne, -⟩ := hok u hu
    exact ⟨u, hu, by rw [hlbl, hs], hne⟩
  · rintro ⟨u, hu, hlbl', -⟩
    obtain ⟨hlbl, -, -⟩ := hok u hu
    have heq : splitextRoot u.img ++ ".txt" = s ++ ".txt" := by rw [← hlbl, hlbl']
    exact ⟨u, hu, append_cancel_right_str heq⟩

/-- C7 witness. -/
theorem no_orphan_iff_witness :
    (∃ u ∈ scenarioRun.units, splitextRoot u.img = "0_train_imgA") ↔
      (∃ u ∈ scenarioRun.units, u.lbl = "0_train_imgA" ++ ".txt" ∧ u.lines ≠ []) :=
  no_orphan_iff [dsA, dsB] scenarioRun "0_train_imgA" (by rfl)

/-- C8: the destination-filename map
`(dataset_idx, split, original_filename) ↦ "{dataset_idx}_{split}_{original_filename}"`
is injective (splits drawn from the fixed split list), so two distinct
source images never collide in the output. -/
theorem dst_filename_injective (i i' : Nat) (s s' f f' : String)
    (hs : s ∈ splitsList) (hs' : s' ∈ splitsList)
    (h : dst_img_filename i s f = dst_img_filename i' s' f') :
    i = i' ∧ s = s' ∧ f = f' := by
  have hdd := congrArg String.data h
  rw [dst_img_filename_data, dst_img_filename_data] at hdd
  obtain ⟨h1, h23⟩ :=
    split_at_underscore _ _ _ _ (underscore_not_mem_natToDigits i)
      (underscore_not_mem_natToDigits i') hdd
  obtain ⟨h2, h3⟩ :=
    split_at_underscore _ _ _ _ (splitsList_no_underscore s hs)
      (splitsList_no_underscore s' hs') h23
  exact ⟨natToDigits_inj h1, strData_inj h2, strData_inj h3⟩

/-- C8 witness. -/
theorem dst_filename_injective_witness :
    (0 : Nat) = 0 ∧ "train" = "train" ∧ "frame1.jpg" = "frame1.jpg" :=
  dst_filename_injective 0 0 "train" "train" "frame1.jpg" "frame1.jpg"
    (by decide) (by decide) rfl

/-- C9: the per-(dataset, split) `images` and `labels` counters are
incremented together, one image-processing step at a time (so the invariant
holds at every intermediate accumulator), and in the final summary of a
successful run they are equal everywhere. -/
theorem images_eq_labels_invariant :
    (∀ (di : Nat) (sp : String) (m : List (Nat × Nat)) (n : Nat)
        (lbls : List (String × List String)) (acc : List OutUnit × SplitCounters)
        (files : List String),
      acc.2.images = acc.2.labels →
      (processImagesAcc di sp m n lbls acc files).2.images =
        (processImagesAcc di sp m n lbls acc files).2.labels) ∧
    (∀ (datasets : List Dataset) (r : RunResult),
      combine_datasets datasets = Except.ok r →
      ∀ row ∈ r.summary, ∀ sc ∈ row.2, sc.2.images = sc.2.labels) := by
  constructor
  · intro di sp m n lbls acc files hacc
    exact processImagesAcc_images_eq_labels files acc hacc
  · intro datasets r h row hrow sc hsc
    simp only [combine_datasets] at h
    split at h
    · cases h
    · injection h with h
      subst h
      exact processAll_images_eq_labels 0 datasets row hrow sc hsc

/-- C9 witness. -/
theorem images_eq_labels_invariant_witness :
    ((⟨1, 1, 0, 0⟩ : SplitCounters)).images = ((⟨1, 1, 0, 0⟩ : SplitCounters)).labels :=
  images_eq_labels_invariant.2 [dsA, dsB] scenarioRun (by rfl)
    ("A", [("train", ⟨1, 1, 0, 0⟩), ("valid", {}), ("test", {})]) (by decide)
    ("train", ⟨1, 1, 0, 0⟩) (by decide)

/-- C10: if any source dataset's manifest is missing, `combine_datasets`
raises in the vocabulary pass, returning an error that carries no outputs:
nothing is written to the output path. -/
theorem missing_manifest_aborts (datasets : List Dataset) (ds : Dataset)
    (hmem : ds ∈ datasets) (hnone : ds.data_yaml = none) :
    ∃ e, combine_datasets datasets = Except.error e := by
  obtain ⟨e, he⟩ := readAllClasses_missing datasets ds hmem hnone
  exact ⟨e, by simp only [combine_datasets, he]⟩

/-- C10 witness. -/
theorem missing_manifest_aborts_witness :
    ∃ e, combine_datasets [dsNoManifest] = Except.error e :=
  missing_manifest_aborts [dsNoManifest] dsNoManifest (by decide) rfl
